import Mathlib

/-!
Verification development for the SkyWriter-Assist gesture-capture firmware.

The definitions below are a shallow embedding of the sensor-node program
`src/src/Capture/gestureCollectorBLE.ino`.  Floating-point accelerometer
readings are modelled with exact rationals; machine integers are modelled as
`Nat`/`Int` with explicit reductions modulo powers of two where the C code
truncates.  The blocking Arduino control flow (countdown delays, the chunk
transmission loop) is modelled by explicit functions from the current global
state and the commands the central writes at the `BLE.poll` points to the new
global state together with the list of observable BLE emissions.
-/

namespace SkyWriter

/-- A recorded accelerometer reading in g units: the float triple
`(x, y, z)` of the source, modelled with exact rationals. -/
abbrev Sample := ℚ × ℚ × ℚ

-- Capture settings (source lines 14-17).
def SAMPLE_RATE_HZ : ℕ := 50
def SAMPLES_PER_CAPTURE : ℕ := 125
def SAMPLE_PERIOD_MS : ℕ := 20

-- Command codes received from the Pi (source lines 26-28).
def CMD_IDLE : ℕ := 0
def CMD_START_CAPTURE : ℕ := 1
def CMD_BUSY : ℕ := 2

-- Status codes sent back (source lines 31-37).
def STATUS_READY : ℕ := 0
def STATUS_COUNTDOWN_3 : ℕ := 1
def STATUS_COUNTDOWN_2 : ℕ := 2
def STATUS_COUNTDOWN_1 : ℕ := 3
def STATUS_CAPTURING : ℕ := 4
def STATUS_COMPLETE : ℕ := 5
def STATUS_ERROR : ℕ := 6

/-- C cast of a float expression to an integer type truncates toward zero. -/
def truncTowardZero (q : ℚ) : ℤ := if 0 ≤ q then ⌊q⌋ else ⌈q⌉

/-- Reduction of an integer into the `int16_t` range by two's complement. -/
def toInt16 (z : ℤ) : ℤ := (z + 32768) % 65536 - 32768

/-- The milli-g value stored for a reading: `(int16_t)(accel * 1000)`
(source lines 247-249). -/
def milligOf (v : ℚ) : ℤ := toInt16 (truncTowardZero (v * 1000))

/-- Two's-complement 16-bit pattern of an int16 value. -/
def uint16Of (z : ℤ) : ℕ := (z % 65536).toNat

/-- The byte pair `x_mg & 0xFF`, `(x_mg >> 8) & 0xFF` (source lines 252-257):
the little-endian bytes of the int16 value. -/
def int16Bytes (z : ℤ) : List ℕ := [uint16Of z % 256, uint16Of z / 256]

/-- The six bytes one Sample contributes to a chunk payload: little-endian
int16 milli-g x, y, z (source lines 243-258). -/
def sampleBytes (s : Sample) : List ℕ :=
  int16Bytes (milligOf s.1) ++ int16Bytes (milligOf s.2.1) ++ int16Bytes (milligOf s.2.2)

/-- Modelled from the spec: the host decodes a stored int16 back to a g value
by dividing by 1000.0 (the Raspberry Pi collector script named by the
repository README is not in the sources; its decode step is
`struct.unpack` of the int16 followed by division by 1000.0). -/
def decodeG (z : ℤ) : ℚ := (z : ℚ) / 1000

/-- Modelled from the spec: the host-side little-endian int16 decode of a
byte pair, as performed by the collector script on each 2-byte field. -/
def decodeInt16LE (lo hi : ℕ) : ℤ := toInt16 ((lo : ℤ) + 256 * (hi : ℤ))

/-- Modelled from the spec: the conversion law claimed by the spec,
`stored_int16 = round(reading_in_g * 1000)`. -/
def specStoredInt16 (v : ℚ) : ℤ := round (v * 1000)

-- Chunking constants of sendDataOverBLE (source lines 228-229).
def SAMPLES_PER_CHUNK : ℕ := 3
def TOTAL_CHUNKS : ℕ := (SAMPLES_PER_CAPTURE + SAMPLES_PER_CHUNK - 1) / SAMPLES_PER_CHUNK

/-- The inner packing loop of one chunk (source lines 243-258): samples
`sent`, `sent + 1`, ... packed in order, six bytes each. -/
def packSamples (buf : List Sample) : ℕ → ℕ → List ℕ
  | _, 0 => []
  | sent, c + 1 =>
    sampleBytes (buf.getD sent ((0 : ℚ), (0 : ℚ), (0 : ℚ))) ++ packSamples buf (sent + 1) c

/-- One Data payload (source lines 237-258): the byte `chunk`, the byte
`samplesInChunk`, then the packed samples. -/
def chunkPayload (buf : List Sample) (chunk sent c : ℕ) : List ℕ :=
  chunk % 256 :: c % 256 :: packSamples buf sent c

/-- One observable BLE output of the node: a Status notification, a value
written to the Command characteristic, a Data payload, or the 60 ms drain
loop of source lines 274-278 (marked so that its position in the emission
order can be stated). -/
inductive Emission where
  | status (code : ℕ)
  | command (code : ℕ)
  | data (payload : List ℕ)
  | drain
deriving DecidableEq

/-- The chunk loop of `sendDataOverBLE` (source lines 234-271) with `n` chunks
still to send, the next chunk index `chunk`, and `sent` samples already sent:
emits each Data payload and, after every 10th chunk, a keep-alive Capturing
status. -/
def sendChunksFrom (buf : List Sample) : ℕ → ℕ → ℕ → List Emission
  | _, 0, _ => []
  | sent, n + 1, chunk =>
    Emission.data (chunkPayload buf chunk sent
        (min SAMPLES_PER_CHUNK (SAMPLES_PER_CAPTURE - sent))) ::
      ((if (chunk + 1) % 10 = 0 then [Emission.status STATUS_CAPTURING] else []) ++
        sendChunksFrom buf (sent + min SAMPLES_PER_CHUNK (SAMPLES_PER_CAPTURE - sent))
          n (chunk + 1))

/-- The full emission trace of `sendDataOverBLE` (source lines 221-289):
a Capturing status, the chunk loop, the drain period, the Complete status,
and the Idle value written back to the Command characteristic. -/
def sendDataEmissions (buf : List Sample) : List Emission :=
  Emission.status STATUS_CAPTURING ::
    (sendChunksFrom buf 0 TOTAL_CHUNKS 0 ++
      [Emission.drain, Emission.status STATUS_COMPLETE, Emission.command CMD_IDLE])

/-- The node's global state variables (source lines 39-48).  `accelBuf` models
the three parallel arrays `accelX`, `accelY`, `accelZ` as one array of
triples. -/
structure NodeState where
  captureRequested : Bool
  captureInProgress : Bool
  captureStartTime : ℕ
  currentSampleIndex : ℕ
  accelBuf : List Sample
deriving DecidableEq

/-- The globals at boot: flags clear, index zero, arrays zeroed. -/
def initialState : NodeState :=
  { captureRequested := false
    captureInProgress := false
    captureStartTime := 0
    currentSampleIndex := 0
    accelBuf := List.replicate SAMPLES_PER_CAPTURE ((0 : ℚ), (0 : ℚ), (0 : ℚ)) }

/-- The handler for a command byte written by the central
(source lines 135-142). -/
def onCommandWritten (s : NodeState) (command : ℕ) : NodeState :=
  if command = CMD_START_CAPTURE ∧ s.captureInProgress = false then
    { s with captureRequested := true }
  else s

/-- Each `BLE.poll` dispatches the handler once per command the central wrote
since the previous poll; `cmds` lists those command bytes in arrival order. -/
def pollCommands (s : NodeState) (cmds : List ℕ) : NodeState :=
  cmds.foldl onCommandWritten s

/-- The function `startCapture` (source lines 144-177): writes the busy ack
and the three countdown statuses with blocking delays, polling in between
(`cmds` are the command bytes the central wrote during those polls), and only
then sets `captureInProgress`, records the start time and zeroes the sample
index. -/
def startCapture (s : NodeState) (cmds : List ℕ) (now : ℕ) : NodeState × List Emission :=
  ({ pollCommands s cmds with
      captureInProgress := true
      captureStartTime := now
      currentSampleIndex := 0 },
   [Emission.command CMD_BUSY, Emission.status STATUS_COUNTDOWN_3,
    Emission.status STATUS_COUNTDOWN_2, Emission.status STATUS_COUNTDOWN_1,
    Emission.status STATUS_CAPTURING])

/-- The function `sendDataOverBLE` (source lines 221-289) as a state
transformer: the emission trace is fixed by the buffer, and the command bytes
written at its `BLE.poll` points are dispatched while `captureInProgress` is
already false. -/
def sendDataOverBLE (s : NodeState) (cmds : List ℕ) : NodeState × List Emission :=
  (pollCommands s cmds, sendDataEmissions s.accelBuf)

/-- The function `performCapture` (source lines 179-219), one pass of the connection
loop at time `now`: if the next sample is due, the index is below capacity and
the sensor reports data available, store the reading and advance the index;
when the index has reached capacity, clear `captureInProgress`, run
`sendDataOverBLE` and emit the Ready status. -/
def performCapture (s : NodeState) (now : ℕ) (avail : Bool) (r : Sample)
    (txCmds : List ℕ) : NodeState × List Emission :=
  let elapsed := now - s.captureStartTime
  let s1 :=
    if s.currentSampleIndex * SAMPLE_PERIOD_MS ≤ elapsed ∧
        s.currentSampleIndex < SAMPLES_PER_CAPTURE ∧ avail = true then
      { s with
          accelBuf := s.accelBuf.set s.currentSampleIndex r
          currentSampleIndex := s.currentSampleIndex + 1 }
    else s
  if SAMPLES_PER_CAPTURE ≤ s1.currentSampleIndex then
    let s2 := { s1 with captureInProgress := false }
    ((sendDataOverBLE s2 txCmds).1,
      (sendDataOverBLE s2 txCmds).2 ++ [Emission.status STATUS_READY])
  else (s1, [])

/-- The environment of one pass of the inner connection loop: the clock, the
sensor availability flag and reading, and the command bytes the central wrote
at the poll points inside `startCapture`, inside `sendDataOverBLE`, and at the
loop's own `BLE.poll` (source line 128). -/
structure IterInput where
  now : ℕ
  avail : Bool
  reading : Sample
  startCmds : List ℕ
  txCmds : List ℕ
  endCmds : List ℕ

/-- One pass of the inner connection loop (source lines 116-129). -/
def loopIteration (s : NodeState) (inp : IterInput) : NodeState × List Emission :=
  let su :=
    if s.captureRequested = true ∧ s.captureInProgress = false then
      startCapture { s with captureRequested := false } inp.startCmds inp.now
    else (s, [])
  let sv :=
    if su.1.captureInProgress = true then
      performCapture su.1 inp.now inp.avail inp.reading inp.txCmds
    else (su.1, [])
  (pollCommands sv.1 inp.endCmds, su.2 ++ sv.2)

/-- One connection (source lines 107-132): the Ready notification and a poll,
then the inner loop runs once per element of `inputs` until the central
disconnects.  The returned state is simply the globals; nothing resets them
when the connection drops. -/
def runSession (s : NodeState) (preCmds : List ℕ) (inputs : List IterInput) :
    NodeState × List Emission :=
  let s1 := pollCommands s preCmds
  let r :=
    inputs.foldl
      (fun acc inp =>
        ((loopIteration acc.1 inp).1, acc.2 ++ (loopIteration acc.1 inp).2))
      (s1, [])
  (r.1, Emission.status STATUS_READY :: r.2)

/-- Iterated `performCapture` over a list of (time, availability, reading)
ticks, with no commands arriving: the recording portion of the loop. -/
def recordRun : NodeState → List (ℕ × Bool × Sample) → NodeState
  | s, [] => s
  | s, t :: rest => recordRun (performCapture s t.1 t.2.1 t.2.2 []).1 rest

/-- Number of ticks at which the sensor reported data available. -/
def availCount (l : List (ℕ × Bool × Sample)) : ℕ :=
  l.countP (fun t => t.2.1)

/-- The Data payloads of a trace, in emission order. -/
def dataPayloads (tr : List Emission) : List (List ℕ) :=
  tr.filterMap fun e =>
    match e with
    | Emission.data p => some p
    | _ => none

/-- The first byte (sequence number) of each Data payload of a trace. -/
def chunkSeqs (tr : List Emission) : List ℕ :=
  (dataPayloads tr).map fun p => p.getD 0 0

/-- The second byte (sample count) of each Data payload of a trace. -/
def chunkCounts (tr : List Emission) : List ℕ :=
  (dataPayloads tr).map fun p => p.getD 1 0

/-- Recognizer for a given status emission. -/
def isStatus (c : ℕ) : Emission → Bool
  | Emission.status k => k == c
  | _ => false

/-- Sequence numbers of the Data payloads that are immediately followed by a
Capturing status in a trace. -/
def keepAliveSeqs (tr : List Emission) : List ℕ :=
  (tr.zip tr.tail).filterMap fun pr =>
    match pr with
    | (Emission.data p, Emission.status k) =>
      if k = STATUS_CAPTURING then some (p.getD 0 0) else none
    | _ => none

/-- The Data payload list of the chunk loop, written directly. -/
def payloadsFrom (buf : List Sample) : ℕ → ℕ → ℕ → List (List ℕ)
  | _, 0, _ => []
  | sent, n + 1, chunk =>
    chunkPayload buf chunk sent (min SAMPLES_PER_CHUNK (SAMPLES_PER_CAPTURE - sent)) ::
      payloadsFrom buf (sent + min SAMPLES_PER_CHUNK (SAMPLES_PER_CAPTURE - sent))
        n (chunk + 1)

/-- The sequence-number column of the chunk loop, written directly. -/
def seqList : ℕ → ℕ → List ℕ
  | _, 0 => []
  | chunk, n + 1 => chunk % 256 :: seqList (chunk + 1) n

/-- The sample-count column of the chunk loop, written directly. -/
def countList : ℕ → ℕ → List ℕ
  | _, 0 => []
  | sent, n + 1 =>
    (min SAMPLES_PER_CHUNK (SAMPLES_PER_CAPTURE - sent)) % 256 ::
      countList (sent + min SAMPLES_PER_CHUNK (SAMPLES_PER_CAPTURE - sent)) n

/-- Concatenated six-byte encodings of a list of samples. -/
def flatBytes : List Sample → List ℕ
  | [] => []
  | s :: t => sampleBytes s ++ flatBytes t

/-! ### Arithmetic facts about the milli-g encoding -/

theorem toInt16_eq_self (z : ℤ) (h1 : -32768 ≤ z) (h2 : z ≤ 32767) : toInt16 z = z := by
  unfold toInt16
  omega

theorem truncTowardZero_mem (q : ℚ) (h1 : -32768 ≤ q) (h2 : q ≤ 32767) :
    -32768 ≤ truncTowardZero q ∧ truncTowardZero q ≤ 32767 := by
  unfold truncTowardZero
  by_cases h : 0 ≤ q
  · rw [if_pos h]
    have hl : (0 : ℤ) ≤ ⌊q⌋ := Int.floor_nonneg.2 h
    have hu : ((⌊q⌋ : ℤ) : ℚ) ≤ 32767 := le_trans (Int.floor_le q) h2
    have hu2 : (⌊q⌋ : ℤ) ≤ 32767 := by exact_mod_cast hu
    omega
  · rw [if_neg h]
    have hq : q ≤ 0 := le_of_not_le h
    have hu : (⌈q⌉ : ℤ) ≤ 0 := Int.ceil_le.2 (by exact_mod_cast hq)
    have hl : (-32768 : ℚ) ≤ ((⌈q⌉ : ℤ) : ℚ) := le_trans h1 (Int.le_ceil q)
    have hl2 : (-32768 : ℤ) ≤ ⌈q⌉ := by exact_mod_cast hl
    omega

theorem milligOf_eq_trunc (v : ℚ) (hlo : -32768 ≤ v * 1000) (hhi : v * 1000 ≤ 32767) :
    milligOf v = truncTowardZero (v * 1000) := by
  obtain ⟨h1, h2⟩ := truncTowardZero_mem (v * 1000) hlo hhi
  rw [milligOf, toInt16_eq_self _ h1 h2]

theorem abs_sub_truncTowardZero_le (q : ℚ) : |q - (truncTowardZero q : ℚ)| ≤ 1 := by
  unfold truncTowardZero
  by_cases h : 0 ≤ q
  · rw [if_pos h, abs_of_nonneg (sub_nonneg.2 (Int.floor_le q))]
    have hf := Int.sub_one_lt_floor q
    linarith
  · rw [if_neg h, abs_of_nonpos (sub_nonpos.2 (Int.le_ceil q))]
    have hc := Int.ceil_lt_add_one q
    linarith

theorem int16_bytes_roundtrip (z : ℤ) (h1 : -32768 ≤ z) (h2 : z ≤ 32767) :
    decodeInt16LE (uint16Of z % 256) (uint16Of z / 256) = z := by
  unfold decodeInt16LE uint16Of toInt16
  omega

/-! ### Claims C1 and C8: the conversion law and the round-trip law -/

/-- C1 counterexample: the spec's conversion law says the stored int16 for a
reading of 0.0019 g is `round(1.9) = 2`, but the firmware's
`(int16_t)(accel * 1000)` cast truncates toward zero and stores 1, so the
first two payload bytes for that reading are `[1, 0]`, not `[2, 0]`. -/
theorem c1_stored_not_round :
    sampleBytes (((19 : ℚ) / 10000, 0, 0)) = [1, 0, 0, 0, 0, 0] ∧
    specStoredInt16 ((19 : ℚ) / 10000) = 2 ∧
    milligOf ((19 : ℚ) / 10000) = 1 := by
  refine ⟨?_, ?_, ?_⟩ <;>
    norm_num [sampleBytes, int16Bytes, uint16Of, milligOf, toInt16, truncTowardZero,
      specStoredInt16, round_eq]

/-- C1 (amended): the value the encoder stores in a chunk for a reading v is
the int16 truncation toward zero of v × 1000 (the C float-to-int cast), not
round-to-nearest: for every reading with v × 1000 in the int16 range, the two
little-endian payload bytes decode back to `truncTowardZero (v * 1000)`. -/
theorem c1_stored_is_trunc (v y z : ℚ)
    (hlo : -32768 ≤ v * 1000) (hhi : v * 1000 ≤ 32767) :
    decodeInt16LE ((sampleBytes (v, y, z)).getD 0 0) ((sampleBytes (v, y, z)).getD 1 0) =
      truncTowardZero (v * 1000) := by
  obtain ⟨h1, h2⟩ := truncTowardZero_mem (v * 1000) hlo hhi
  have hb0 : (sampleBytes (v, y, z)).getD 0 0 = uint16Of (milligOf v) % 256 := rfl
  have hb1 : (sampleBytes (v, y, z)).getD 1 0 = uint16Of (milligOf v) / 256 := rfl
  rw [hb0, hb1, milligOf_eq_trunc v hlo hhi, int16_bytes_roundtrip _ h1 h2]

/-- C1 witness: the amended law evaluated at the reading 0.0019 g. -/
theorem c1_stored_is_trunc_witness :
    (-32768 ≤ (19 : ℚ) / 10000 * 1000 ∧ (19 : ℚ) / 10000 * 1000 ≤ 32767) ∧
    decodeInt16LE ((sampleBytes ((19 : ℚ) / 10000, 0, 0)).getD 0 0)
        ((sampleBytes ((19 : ℚ) / 10000, 0, 0)).getD 1 0) =
      truncTowardZero ((19 : ℚ) / 10000 * 1000) :=
  ⟨⟨by norm_num, by norm_num⟩,
    c1_stored_is_trunc ((19 : ℚ) / 10000) 0 0 (by norm_num) (by norm_num)⟩

/-- C8: for every representable g-value (one whose milli-g value fits the
int16 range), decoding the stored encoding recovers the reading to within the
quantization step: |v − stored/1000| ≤ 1/1000. -/
theorem c8_roundtrip (v : ℚ) (hlo : -32768 ≤ v * 1000) (hhi : v * 1000 ≤ 32767) :
    |v - decodeG (milligOf v)| ≤ 1 / 1000 := by
  rw [milligOf_eq_trunc v hlo hhi, decodeG]
  have habs := abs_sub_truncTowardZero_le (v * 1000)
  have hrw : v - (truncTowardZero (v * 1000) : ℚ) / 1000 =
      (v * 1000 - (truncTowardZero (v * 1000) : ℚ)) / 1000 := by ring
  rw [hrw, abs_div, show |(1000 : ℚ)| = 1000 by norm_num]
  rw [div_le_div_iff₀ (by norm_num) (by norm_num)]
  nlinarith [habs]

/-- C8 witness: the round-trip bound evaluated at the reading 1/2 g. -/
theorem c8_roundtrip_witness :
    (-32768 ≤ (1 : ℚ) / 2 * 1000 ∧ (1 : ℚ) / 2 * 1000 ≤ 32767) ∧
    |(1 : ℚ) / 2 - decodeG (milligOf ((1 : ℚ) / 2))| ≤ 1 / 1000 :=
  ⟨⟨by norm_num, by norm_num⟩, c8_roundtrip ((1 : ℚ) / 2) (by norm_num) (by norm_num)⟩

/-! ### Structure of the transmission trace -/

theorem sampleBytes_length (s : Sample) : (sampleBytes s).length = 6 := rfl

theorem flatBytes_length (l : List Sample) : (flatBytes l).length = 6 * l.length := by
  induction l with
  | nil => rfl
  | cons s t ih => simp [flatBytes, sampleBytes_length, ih]; ring

theorem packSamples_eq_flatBytes (buf : List Sample) :
    ∀ c sent, sent + c ≤ buf.length →
      packSamples buf sent c = flatBytes ((buf.drop sent).take c) := by
  intro c
  induction c with
  | zero => intro sent h; rfl
  | succ c ih =>
    intro sent h
    have hlt : sent < buf.length := by omega
    rw [packSamples, List.drop_eq_getElem_cons hlt, List.take_succ_cons, flatBytes,
      List.getD_eq_getElem buf _ hlt, ih (sent + 1) (by omega)]

theorem dataPayloads_sendChunksFrom (buf : List Sample) :
    ∀ n sent chunk,
      dataPayloads (sendChunksFrom buf sent n chunk) = payloadsFrom buf sent n chunk := by
  intro n
  induction n with
  | zero => intro sent chunk; rfl
  | succ n ih =>
    intro sent chunk
    rw [sendChunksFrom, payloadsFrom]
    by_cases h : (chunk + 1) % 10 = 0 <;>
      simp [h, dataPayloads, List.filterMap_append, ← ih]

theorem map_getD0_payloadsFrom (buf : List Sample) :
    ∀ n sent chunk,
      (payloadsFrom buf sent n chunk).map (fun p => p.getD 0 0) = seqList chunk n := by
  intro n
  induction n with
  | zero => intro sent chunk; rfl
  | succ n ih =>
    intro sent chunk
    rw [payloadsFrom, seqList, List.map_cons, ih]
    rfl

theorem map_getD1_payloadsFrom (buf : List Sample) :
    ∀ n sent chunk,
      (payloadsFrom buf sent n chunk).map (fun p => p.getD 1 0) = countList sent n := by
  intro n
  induction n with
  | zero => intro sent chunk; rfl
  | succ n ih =>
    intro sent chunk
    rw [payloadsFrom, countList, List.map_cons, ih]
    rfl

theorem dataPayloads_sendDataEmissions (buf : List Sample) :
    dataPayloads (sendDataEmissions buf) = payloadsFrom buf 0 TOTAL_CHUNKS 0 := by
  have h := dataPayloads_sendChunksFrom buf TOTAL_CHUNKS 0 0
  unfold dataPayloads at h ⊢
  unfold sendDataEmissions
  simp only [List.filterMap_cons, List.filterMap_append, List.filterMap_nil]
  simpa using h

theorem payloadsFrom_closed (buf : List Sample) (hbuf : buf.length = 125) :
    ∀ n chunk, chunk + n = TOTAL_CHUNKS →
      payloadsFrom buf (3 * chunk) n chunk =
        (List.range n).map (fun j =>
          (chunk + j) % 256 ::
            (min SAMPLES_PER_CHUNK (SAMPLES_PER_CAPTURE - 3 * (chunk + j))) % 256 ::
            flatBytes ((buf.drop (3 * (chunk + j))).take
              (min SAMPLES_PER_CHUNK (SAMPLES_PER_CAPTURE - 3 * (chunk + j))))) := by
  intro n
  induction n with
  | zero => intro chunk h; rfl
  | succ n ih =>
    intro chunk h
    have htot : TOTAL_CHUNKS = 42 := rfl
    rw [htot] at h
    have hchunk : chunk ≤ 41 := by omega
    have hc : min SAMPLES_PER_CHUNK (SAMPLES_PER_CAPTURE - 3 * chunk) ≤
        125 - 3 * chunk := by
      simp [SAMPLES_PER_CAPTURE]
    rw [payloadsFrom, List.range_succ_eq_map, List.map_cons, List.map_map]
    have hhead : chunkPayload buf chunk (3 * chunk)
        (min SAMPLES_PER_CHUNK (SAMPLES_PER_CAPTURE - 3 * chunk)) =
        (chunk + 0) % 256 ::
          (min SAMPLES_PER_CHUNK (SAMPLES_PER_CAPTURE - 3 * (chunk + 0))) % 256 ::
          flatBytes ((buf.drop (3 * (chunk + 0))).take
            (min SAMPLES_PER_CHUNK (SAMPLES_PER_CAPTURE - 3 * (chunk + 0)))) := by
      rw [chunkPayload, packSamples_eq_flatBytes buf _ (3 * chunk) (by omega)]
      simp
    rw [hhead]
    congr 1
    rcases Nat.eq_zero_or_pos n with hn | hn
    · subst hn
      rfl
    · have hch40 : chunk ≤ 40 := by omega
      have hmin : min SAMPLES_PER_CHUNK (SAMPLES_PER_CAPTURE - 3 * chunk) = 3 := by
        simp only [SAMPLES_PER_CHUNK, SAMPLES_PER_CAPTURE]
        omega
      rw [hmin, show 3 * chunk + 3 = 3 * (chunk + 1) by ring]
      rw [ih (chunk + 1) (by omega)]
      apply List.map_congr_left
      intro j hj
      have harg : chunk + 1 + j = chunk + Nat.succ j := by omega
      simp only [Function.comp, harg]

/-- C2: for capacity 125 and chunk size 3 the encoder emits
ceil(125/3) = 42 chunks, chunks 0 through 40 carry 3 samples each, chunk 41
carries 2, and the per-chunk sample counts sum to the capacity. -/
theorem c2_chunk_counts (buf : List Sample) :
    (dataPayloads (sendDataEmissions buf)).length = TOTAL_CHUNKS ∧
    TOTAL_CHUNKS = 42 ∧
    (TOTAL_CHUNKS : ℤ) = ⌈(125 : ℚ) / 3⌉ ∧
    chunkCounts (sendDataEmissions buf) = List.replicate 41 3 ++ [2] ∧
    (chunkCounts (sendDataEmissions buf)).sum = SAMPLES_PER_CAPTURE := by
  have hcounts : chunkCounts (sendDataEmissions buf) = countList 0 TOTAL_CHUNKS := by
    rw [chunkCounts, dataPayloads_sendDataEmissions, map_getD1_payloadsFrom]
  have hlen : (dataPayloads (sendDataEmissions buf)).length = TOTAL_CHUNKS := by
    have hc := congrArg List.length hcounts
    rw [chunkCounts, List.length_map] at hc
    rw [hc]
    decide
  refine ⟨hlen, rfl, ?_, ?_, ?_⟩
  · rw [show TOTAL_CHUNKS = 42 from rfl, eq_comm, Int.ceil_eq_iff]
    norm_num
  · rw [hcounts]; decide
  · rw [hcounts]; decide

/-- C3: every emitted Data payload is the byte sequence
[sequence][count][count × 6 bytes of little-endian int16 milli-g x, y, z],
is at most 20 bytes long, and the payload sequence numbers are dense,
starting at 0 and increasing by 1 in emission order. -/
theorem c3_payload_layout (buf : List Sample) (hbuf : buf.length = 125) :
    dataPayloads (sendDataEmissions buf) =
      (List.range TOTAL_CHUNKS).map (fun i =>
        i :: min SAMPLES_PER_CHUNK (SAMPLES_PER_CAPTURE - 3 * i) ::
          flatBytes ((buf.drop (3 * i)).take
            (min SAMPLES_PER_CHUNK (SAMPLES_PER_CAPTURE - 3 * i)))) ∧
    (∀ p ∈ dataPayloads (sendDataEmissions buf), p.length ≤ 20) ∧
    chunkSeqs (sendDataEmissions buf) = List.range TOTAL_CHUNKS := by
  have hmain : dataPayloads (sendDataEmissions buf) =
      (List.range TOTAL_CHUNKS).map (fun i =>
        i :: min SAMPLES_PER_CHUNK (SAMPLES_PER_CAPTURE - 3 * i) ::
          flatBytes ((buf.drop (3 * i)).take
            (min SAMPLES_PER_CHUNK (SAMPLES_PER_CAPTURE - 3 * i)))) := by
    rw [dataPayloads_sendDataEmissions]
    have h0 := payloadsFrom_closed buf hbuf TOTAL_CHUNKS 0 (by rfl)
    rw [show 3 * 0 = 0 from rfl] at h0
    rw [h0]
    apply List.map_congr_left
    intro i hi
    have hilt : i < 42 := by
      simpa [show TOTAL_CHUNKS = 42 from rfl] using List.mem_range.1 hi
    have h256 : i % 256 = i := by omega
    have hminle : min SAMPLES_PER_CHUNK (SAMPLES_PER_CAPTURE - 3 * i) ≤ 3 := by
      simp [SAMPLES_PER_CHUNK]
    have hmod : min SAMPLES_PER_CHUNK (SAMPLES_PER_CAPTURE - 3 * i) % 256 =
        min SAMPLES_PER_CHUNK (SAMPLES_PER_CAPTURE - 3 * i) := by omega
    simp only [Nat.zero_add, h256, hmod]
  refine ⟨hmain, ?_, ?_⟩
  · intro p hp
    rw [hmain] at hp
    obtain ⟨i, hi, rfl⟩ := List.mem_map.1 hp
    have hilt : i < 42 := by
      simpa [show TOTAL_CHUNKS = 42 from rfl] using List.mem_range.1 hi
    have hdrop : (buf.drop (3 * i)).length = 125 - 3 * i := by
      simp [hbuf]
    have htake : ((buf.drop (3 * i)).take
        (min SAMPLES_PER_CHUNK (SAMPLES_PER_CAPTURE - 3 * i))).length =
        min SAMPLES_PER_CHUNK (SAMPLES_PER_CAPTURE - 3 * i) := by
      rw [List.length_take, hdrop]
      simp only [SAMPLES_PER_CHUNK, SAMPLES_PER_CAPTURE]
      omega
    simp only [List.length_cons, flatBytes_length, htake]
    have : min SAMPLES_PER_CHUNK (SAMPLES_PER_CAPTURE - 3 * i) ≤ 3 := by
      simp [SAMPLES_PER_CHUNK]
    omega
  · rw [chunkSeqs, dataPayloads_sendDataEmissions, map_getD0_payloadsFrom]
    decide

/-- C3 witness: the layout theorem applied to the all-zero capture buffer. -/
theorem c3_payload_layout_witness :
    (List.replicate 125 ((0 : ℚ), (0 : ℚ), (0 : ℚ))).length = 125 ∧
    chunkSeqs (sendDataEmissions (List.replicate 125 ((0 : ℚ), (0 : ℚ), (0 : ℚ)))) =
      List.range TOTAL_CHUNKS :=
  ⟨by simp,
    (c3_payload_layout (List.replicate 125 ((0 : ℚ), (0 : ℚ), (0 : ℚ)))
      (by simp)).2.2⟩

theorem sendChunksFrom_shape (buf : List Sample) :
    ∀ n sent chunk, ∀ e ∈ sendChunksFrom buf sent n chunk,
      (∃ p, e = Emission.data p) ∨ e = Emission.status STATUS_CAPTURING := by
  intro n
  induction n with
  | zero => intro sent chunk e he; simp [sendChunksFrom] at he
  | succ n ih =>
    intro sent chunk e he
    rw [sendChunksFrom] at he
    rcases List.mem_cons.1 he with h | h
    · exact Or.inl ⟨_, h⟩
    · rcases List.mem_append.1 h with h2 | h2
      · by_cases hk : (chunk + 1) % 10 = 0
        · rw [if_pos hk] at h2
          simp only [List.mem_singleton] at h2
          exact Or.inr h2
        · rw [if_neg hk] at h2
          simp at h2
      · exact ih _ _ _ h2

/-- C7: the transmission phase emits, in order, a start-of-transmission
Capturing status, then every chunk in increasing dense sequence order (the
only other emissions among them being keep-alive Capturing statuses), then
the drain period, and only after it the Complete status; the Complete status
is never emitted before the last chunk. -/
theorem c7_transmission_order (buf : List Sample) :
    ∃ body, sendDataEmissions buf =
        Emission.status STATUS_CAPTURING :: body ++
          [Emission.drain, Emission.status STATUS_COMPLETE, Emission.command CMD_IDLE] ∧
      Emission.status STATUS_COMPLETE ∉ body ∧
      Emission.drain ∉ body ∧
      (∀ e ∈ body, (∃ p, e = Emission.data p) ∨ e = Emission.status STATUS_CAPTURING) ∧
      chunkSeqs body = List.range TOTAL_CHUNKS := by
  refine ⟨sendChunksFrom buf 0 TOTAL_CHUNKS 0, rfl, ?_, ?_,
    fun e he => sendChunksFrom_shape buf _ _ _ e he, ?_⟩
  · intro hmem
    rcases sendChunksFrom_shape buf _ _ _ _ hmem with ⟨p, hp⟩ | hp <;> simp [STATUS_COMPLETE, STATUS_CAPTURING] at hp
  · intro hmem
    rcases sendChunksFrom_shape buf _ _ _ _ hmem with ⟨p, hp⟩ | hp <;> simp at hp
  · rw [chunkSeqs, dataPayloads_sendChunksFrom, map_getD0_payloadsFrom]
    decide

/-! ### Keep-alive statuses inside the chunk loop -/

/-- The contribution of one adjacent emission pair to `keepAliveSeqs`. -/
def kaStep : Emission → Option Emission → List ℕ
  | Emission.data p, some (Emission.status k) =>
    if k = STATUS_CAPTURING then [p.getD 0 0] else []
  | _, _ => []

theorem keepAliveSeqs_cons (a : Emission) (l : List Emission) :
    keepAliveSeqs (a :: l) = kaStep a l.head? ++ keepAliveSeqs l := by
  cases l with
  | nil => cases a <;> simp [keepAliveSeqs, kaStep]
  | cons b t =>
    set_option linter.unnecessarySeqFocus false in
    cases a <;> cases b <;>
      simp [keepAliveSeqs, kaStep, List.zip_cons_cons, List.filterMap_cons] <;>
      split_ifs <;> simp

/-- The sequence numbers after which the chunk loop inserts a keep-alive
status, written directly. -/
def kaSeqList : ℕ → ℕ → List ℕ
  | _, 0 => []
  | chunk, n + 1 =>
    (if (chunk + 1) % 10 = 0 then [chunk % 256] else []) ++ kaSeqList (chunk + 1) n

theorem keepAliveSeqs_sendChunksFrom (buf : List Sample) :
    ∀ n sent chunk,
      keepAliveSeqs (sendChunksFrom buf sent n chunk ++
          [Emission.drain, Emission.status STATUS_COMPLETE, Emission.command CMD_IDLE]) =
        kaSeqList chunk n := by
  intro n
  induction n with
  | zero =>
    intro sent chunk
    rw [sendChunksFrom, kaSeqList, List.nil_append]
    decide
  | succ n ih =>
    intro sent chunk
    rw [sendChunksFrom, kaSeqList]
    by_cases hk : (chunk + 1) % 10 = 0
    · rw [if_pos hk, if_pos hk]
      rw [List.cons_append, keepAliveSeqs_cons]
      rw [List.singleton_append, List.cons_append, keepAliveSeqs_cons]
      rw [ih]
      simp [kaStep, chunkPayload, STATUS_CAPTURING]
    · rw [if_neg hk, if_neg hk]
      rw [List.nil_append, List.cons_append, keepAliveSeqs_cons, ih]
      cases n with
      | zero =>
        rw [sendChunksFrom]
        simp [kaStep]
      | succ m =>
        rw [sendChunksFrom]
        simp [kaStep]

theorem countP_capturing_sendChunksFrom (buf : List Sample) :
    ∀ n sent chunk,
      (sendChunksFrom buf sent n chunk).countP (isStatus STATUS_CAPTURING) =
        (chunk + n) / 10 - chunk / 10 := by
  intro n
  induction n with
  | zero => intro sent chunk; simp [sendChunksFrom]
  | succ n ih =>
    intro sent chunk
    rw [sendChunksFrom]
    rw [List.countP_cons, List.countP_append, ih]
    by_cases hk : (chunk + 1) % 10 = 0
    · rw [if_pos hk]
      simp only [isStatus, List.countP_cons, List.countP_nil]
      simp only [show ((STATUS_CAPTURING == STATUS_CAPTURING) = true) from rfl]
      norm_num
      omega
    · rw [if_neg hk]
      simp only [isStatus, List.countP_nil]
      norm_num
      omega

/-- C10: the node emits the Capturing status once at the start of
transmission and again right after chunks 9, 19, 29 and 39, for five
Capturing notifications in total interleaved with the Data chunks before the
Complete status. -/
theorem c10_keepalive_statuses (buf : List Sample) :
    (sendDataEmissions buf).head? = some (Emission.status STATUS_CAPTURING) ∧
    keepAliveSeqs (sendDataEmissions buf) = [9, 19, 29, 39] ∧
    (sendDataEmissions buf).countP (isStatus STATUS_CAPTURING) = 5 := by
  refine ⟨rfl, ?_, ?_⟩
  · rw [sendDataEmissions, keepAliveSeqs_cons, keepAliveSeqs_sendChunksFrom]
    have hka : kaSeqList 0 TOTAL_CHUNKS = [9, 19, 29, 39] := by decide
    rw [hka]
    simp [kaStep]
  · rw [sendDataEmissions, List.countP_cons, List.countP_append,
      countP_capturing_sendChunksFrom, show TOTAL_CHUNKS = 42 from rfl]
    decide

/-! ### State-machine lemmas -/

theorem onCommandWritten_fields (s : NodeState) (c : ℕ) :
    (onCommandWritten s c).captureInProgress = s.captureInProgress ∧
    (onCommandWritten s c).currentSampleIndex = s.currentSampleIndex ∧
    (onCommandWritten s c).captureStartTime = s.captureStartTime ∧
    (onCommandWritten s c).accelBuf = s.accelBuf := by
  unfold onCommandWritten
  split_ifs <;> simp

theorem pollCommands_fields (s : NodeState) (cmds : List ℕ) :
    (pollCommands s cmds).captureInProgress = s.captureInProgress ∧
    (pollCommands s cmds).currentSampleIndex = s.currentSampleIndex ∧
    (pollCommands s cmds).captureStartTime = s.captureStartTime ∧
    (pollCommands s cmds).accelBuf = s.accelBuf := by
  induction cmds generalizing s with
  | nil => exact ⟨rfl, rfl, rfl, rfl⟩
  | cons c t ih =>
    obtain ⟨a1, a2, a3, a4⟩ := onCommandWritten_fields s c
    obtain ⟨b1, b2, b3, b4⟩ := ih (onCommandWritten s c)
    exact ⟨b1.trans a1, b2.trans a2, b3.trans a3, b4.trans a4⟩

theorem onCommandWritten_requested_true (s : NodeState) (c : ℕ)
    (h : s.captureRequested = true) : (onCommandWritten s c).captureRequested = true := by
  unfold onCommandWritten
  split_ifs <;> simp [h]

theorem pollCommands_requested_true (s : NodeState) (cmds : List ℕ)
    (h : s.captureRequested = true) : (pollCommands s cmds).captureRequested = true := by
  induction cmds generalizing s with
  | nil => exact h
  | cons c t ih => exact ih _ (onCommandWritten_requested_true s c h)

theorem pollCommands_sets_requested (s : NodeState) (cmds : List ℕ)
    (hprog : s.captureInProgress = false) (hmem : CMD_START_CAPTURE ∈ cmds) :
    (pollCommands s cmds).captureRequested = true := by
  induction cmds generalizing s with
  | nil => simp at hmem
  | cons c t ih =>
    rcases List.mem_cons.1 hmem with rfl | hm
    · have hset : (onCommandWritten s CMD_START_CAPTURE).captureRequested = true := by
        unfold onCommandWritten
        rw [if_pos ⟨rfl, hprog⟩]
      exact pollCommands_requested_true _ t hset
    · exact ih _ (((onCommandWritten_fields s c).1).trans hprog) hm

theorem countP_complete_sendDataEmissions (buf : List Sample) :
    (sendDataEmissions buf).countP (isStatus STATUS_COMPLETE) = 1 := by
  rw [sendDataEmissions, List.countP_cons, List.countP_append]
  have hz : (sendChunksFrom buf 0 TOTAL_CHUNKS 0).countP (isStatus STATUS_COMPLETE) = 0 := by
    rw [List.countP_eq_zero]
    intro e he
    rcases sendChunksFrom_shape buf _ _ _ e he with ⟨p, rfl⟩ | rfl
    · simp [isStatus]
    · decide
  rw [hz]
  decide

/-! ### Claims C4, C5, C6, C9 -/

/-- C4 counterexample: a start command received at a poll point during the
countdown (where `captureInProgress` is still false) sets `captureRequested`
— it is queued — whereas with no command written the flag stays clear; so a
start command received outside AwaitingReady/Idle is not without effect. -/
theorem c4_start_during_countdown_is_queued :
    (startCapture initialState [CMD_START_CAPTURE] 0).1.captureRequested = true ∧
    (startCapture initialState [] 0).1.captureRequested = false := by
  constructor <;> rfl

/-- C4 (amended): a start command received during Recording (while
`captureInProgress` is set) is ignored outright and leaves the state
untouched; but during the countdown and during transmission
`captureInProgress` is still (respectively already) false, so a start command
received at a poll point there sets `captureRequested` — it is queued — and
the queued request launches a fresh capture, beginning with the busy ack and
the countdown statuses, at the next pass of the connection loop on which the
node is not capturing. -/
theorem c4_busy_handling :
    (∀ s c, s.captureInProgress = true → onCommandWritten s c = s) ∧
    (∀ s cmds now, s.captureInProgress = false → CMD_START_CAPTURE ∈ cmds →
      (startCapture s cmds now).1.captureRequested = true) ∧
    (∀ s cmds, s.captureInProgress = false → CMD_START_CAPTURE ∈ cmds →
      (sendDataOverBLE s cmds).1.captureRequested = true) ∧
    (∀ s inp, s.captureRequested = true → s.captureInProgress = false →
      (loopIteration s inp).2.take 5 =
        [Emission.command CMD_BUSY, Emission.status STATUS_COUNTDOWN_3,
         Emission.status STATUS_COUNTDOWN_2, Emission.status STATUS_COUNTDOWN_1,
         Emission.status STATUS_CAPTURING]) := by
  refine ⟨?_, ?_, ?_, ?_⟩
  · intro s c h
    unfold onCommandWritten
    rw [if_neg]
    simp [h]
  · intro s cmds now hprog hmem
    exact pollCommands_sets_requested s cmds hprog hmem
  · intro s cmds hprog hmem
    exact pollCommands_sets_requested s cmds hprog hmem
  · intro s inp h1 h2
    simp only [loopIteration, h1, h2, and_self, if_true, startCapture]
    simp

/-- C4 witness: the amended behavior exhibited on concrete states — a start
command during a capture in progress is dropped, and one received during the
countdown of a fresh capture is queued and later replayed. -/
theorem c4_busy_handling_witness :
    (({ initialState with captureInProgress := true } : NodeState).captureInProgress = true ∧
      onCommandWritten { initialState with captureInProgress := true } CMD_START_CAPTURE =
        { initialState with captureInProgress := true }) ∧
    (initialState.captureInProgress = false ∧ CMD_START_CAPTURE ∈ [CMD_START_CAPTURE] ∧
      (startCapture initialState [CMD_START_CAPTURE] 0).1.captureRequested = true) :=
  ⟨⟨rfl, c4_busy_handling.1 _ CMD_START_CAPTURE rfl⟩,
    ⟨rfl, List.mem_singleton.2 rfl,
      c4_busy_handling.2.1 initialState [CMD_START_CAPTURE] 0 rfl
        (List.mem_singleton.2 rfl)⟩⟩

/-- C5 counterexample: the central connects, sends a start command, and the
link drops after one recording tick.  The session ends with
`captureInProgress` still true and the sample index at 1, no completion
status was emitted, and on the next connection the capture resumes (the index
advances to 2) with no new start command — so capture state does survive into
the next connection and the node does not return to Idle. -/
theorem c5_state_survives_disconnect :
    (runSession initialState [CMD_START_CAPTURE]
        [⟨0, true, ((0 : ℚ), 0, 0), [], [], []⟩]).1.captureInProgress = true ∧
    (runSession initialState [CMD_START_CAPTURE]
        [⟨0, true, ((0 : ℚ), 0, 0), [], [], []⟩]).1.currentSampleIndex = 1 ∧
    (runSession initialState [CMD_START_CAPTURE]
        [⟨0, true, ((0 : ℚ), 0, 0), [], [], []⟩]).2.countP
      (isStatus STATUS_COMPLETE) = 0 ∧
    (runSession
        (runSession initialState [CMD_START_CAPTURE]
          [⟨0, true, ((0 : ℚ), 0, 0), [], [], []⟩]).1
        [] [⟨40, true, ((0 : ℚ), 0, 0), [], [], []⟩]).1.currentSampleIndex = 2 := by
  refine ⟨rfl, rfl, rfl, rfl⟩

theorem performCapture_master (s : NodeState) (now : ℕ) (avail : Bool) (r : Sample)
    (txCmds : List ℕ) :
    ((performCapture s now avail r txCmds).1.currentSampleIndex = s.currentSampleIndex ∨
      ((performCapture s now avail r txCmds).1.currentSampleIndex = s.currentSampleIndex + 1 ∧
        avail = true ∧ s.currentSampleIndex < SAMPLES_PER_CAPTURE)) ∧
    (((performCapture s now avail r txCmds).1.captureInProgress = s.captureInProgress ∧
        (performCapture s now avail r txCmds).2 = [] ∧
        ¬SAMPLES_PER_CAPTURE ≤ (performCapture s now avail r txCmds).1.currentSampleIndex) ∨
      (SAMPLES_PER_CAPTURE ≤ (performCapture s now avail r txCmds).1.currentSampleIndex ∧
        (performCapture s now avail r txCmds).1.captureInProgress = false ∧
        ∃ b, (performCapture s now avail r txCmds).2 =
          sendDataEmissions b ++ [Emission.status STATUS_READY])) := by
  simp only [performCapture, sendDataOverBLE]
  split_ifs with hdue hdone hdone
  · dsimp only
    rw [(pollCommands_fields _ txCmds).1, (pollCommands_fields _ txCmds).2.1]
    dsimp only
    dsimp only at hdone
    exact ⟨Or.inr ⟨rfl, hdue.2.2, hdue.2.1⟩, Or.inr ⟨hdone, rfl, ⟨_, rfl⟩⟩⟩
  · dsimp only
    dsimp only at hdone
    exact ⟨Or.inr ⟨rfl, hdue.2.2, hdue.2.1⟩, Or.inl ⟨rfl, rfl, hdone⟩⟩
  · dsimp only
    rw [(pollCommands_fields _ txCmds).1, (pollCommands_fields _ txCmds).2.1]
    dsimp only
    exact ⟨Or.inl rfl, Or.inr ⟨hdone, rfl, ⟨_, rfl⟩⟩⟩
  · exact ⟨Or.inl rfl, Or.inl ⟨rfl, rfl, hdone⟩⟩

/-- C5 (amended): a disconnect during Countdown or Recording has seen no
completion status — `performCapture` emits a Complete status exactly when the
sample index has reached capacity — but the node does not reset to Idle: the
command handler and the connection polls touch only `captureRequested`, so
`captureInProgress`, the sample index, the start time and the buffer survive
unchanged into the next connection, where the capture resumes. -/
theorem c5_no_reset_on_disconnect :
    (∀ s cmds, (pollCommands s cmds).captureInProgress = s.captureInProgress ∧
      (pollCommands s cmds).currentSampleIndex = s.currentSampleIndex ∧
      (pollCommands s cmds).captureStartTime = s.captureStartTime ∧
      (pollCommands s cmds).accelBuf = s.accelBuf) ∧
    (∀ s now avail r txCmds,
      (performCapture s now avail r txCmds).2.countP (isStatus STATUS_COMPLETE) ≠ 0 ↔
        SAMPLES_PER_CAPTURE ≤ (performCapture s now avail r txCmds).1.currentSampleIndex) := by
  refine ⟨pollCommands_fields, ?_⟩
  intro s now avail r txCmds
  obtain ⟨-, hcase⟩ := performCapture_master s now avail r txCmds
  rcases hcase with ⟨-, he, hn⟩ | ⟨hn, -, b, he⟩
  · rw [he]
    simp only [List.countP_nil]
    exact ⟨fun h => absurd rfl h, fun h => absurd h hn⟩
  · rw [he, List.countP_append, countP_complete_sendDataEmissions]
    exact ⟨fun _ => hn, fun _ => by decide⟩

/-- C6: recording ends and transmission begins exactly when the sample index
reaches capacity, whatever the clock says: for every time value, the capture
leaves the in-progress state iff the (possibly just advanced) sample index
has reached 125, emissions occur iff it has, and when they occur they begin
with the start-of-transmission Capturing status. -/
theorem c6_index_driven_termination (s : NodeState) (hs : s.captureInProgress = true)
    (now : ℕ) (avail : Bool) (r : Sample) (txCmds : List ℕ) :
    ((performCapture s now avail r txCmds).1.captureInProgress = false ↔
      SAMPLES_PER_CAPTURE ≤ (performCapture s now avail r txCmds).1.currentSampleIndex) ∧
    ((performCapture s now avail r txCmds).2 ≠ [] ↔
      SAMPLES_PER_CAPTURE ≤ (performCapture s now avail r txCmds).1.currentSampleIndex) ∧
    ((performCapture s now avail r txCmds).2 = [] ∨
      (performCapture s now avail r txCmds).2.head? =
        some (Emission.status STATUS_CAPTURING)) := by
  obtain ⟨-, hcase⟩ := performCapture_master s now avail r txCmds
  rcases hcase with ⟨hp, he, hn⟩ | ⟨hn, hp, b, he⟩
  · refine ⟨?_, ?_, Or.inl he⟩
    · constructor
      · intro hfalse
        rw [hs] at hp
        rw [hp] at hfalse
        cases hfalse
      · intro hcontra
        exact absurd hcontra hn
    · constructor
      · intro hne
        exact absurd he hne
      · intro hcontra
        exact absurd hcontra hn
  · refine ⟨⟨fun _ => hn, fun _ => hp⟩, ⟨fun _ => hn, fun _ => ?_⟩, Or.inr ?_⟩
    · rw [he]
      simp [sendDataEmissions]
    · rw [he]
      rfl

/-- C6 witness: the termination criterion applied to a recording state one
sample short of capacity. -/
theorem c6_index_driven_termination_witness :
    ({ captureRequested := false, captureInProgress := true, captureStartTime := 0,
        currentSampleIndex := 124, accelBuf := [] } : NodeState).captureInProgress = true ∧
    (((performCapture
          { captureRequested := false, captureInProgress := true, captureStartTime := 0,
            currentSampleIndex := 124, accelBuf := [] } 5000 true ((0 : ℚ), 0, 0)
          []).1.captureInProgress = false ↔
        SAMPLES_PER_CAPTURE ≤ (performCapture
          { captureRequested := false, captureInProgress := true, captureStartTime := 0,
            currentSampleIndex := 124, accelBuf := [] } 5000 true ((0 : ℚ), 0, 0)
          []).1.currentSampleIndex) ∧
      ((performCapture
          { captureRequested := false, captureInProgress := true, captureStartTime := 0,
            currentSampleIndex := 124, accelBuf := [] } 5000 true ((0 : ℚ), 0, 0)
          []).2 ≠ [] ↔
        SAMPLES_PER_CAPTURE ≤ (performCapture
          { captureRequested := false, captureInProgress := true, captureStartTime := 0,
            currentSampleIndex := 124, accelBuf := [] } 5000 true ((0 : ℚ), 0, 0)
          []).1.currentSampleIndex) ∧
      ((performCapture
          { captureRequested := false, captureInProgress := true, captureStartTime := 0,
            currentSampleIndex := 124, accelBuf := [] } 5000 true ((0 : ℚ), 0, 0)
          []).2 = [] ∨
        (performCapture
          { captureRequested := false, captureInProgress := true, captureStartTime := 0,
            currentSampleIndex := 124, accelBuf := [] } 5000 true ((0 : ℚ), 0, 0)
          []).2.head? = some (Emission.status STATUS_CAPTURING))) :=
  ⟨rfl, c6_index_driven_termination _ rfl 5000 true ((0 : ℚ), 0, 0) []⟩

theorem performCapture_step_bound (s : NodeState) (now : ℕ) (avail : Bool) (r : Sample)
    (h : s.currentSampleIndex + (if avail then 1 else 0) < SAMPLES_PER_CAPTURE) :
    (performCapture s now avail r []).1.captureInProgress = s.captureInProgress ∧
    (performCapture s now avail r []).1.currentSampleIndex ≤
      s.currentSampleIndex + (if avail then 1 else 0) := by
  have hlt : s.currentSampleIndex < SAMPLES_PER_CAPTURE := by
    cases avail <;> simp at h <;> omega
  obtain ⟨hidx, hcase⟩ := performCapture_master s now avail r []
  rcases hcase with ⟨hp, -, hn⟩ | ⟨hn, -, -⟩
  · refine ⟨hp, ?_⟩
    rcases hidx with hq | ⟨hq, hav, -⟩
    · rw [hq]
      exact Nat.le_add_right _ _
    · rw [hq, hav]
      simp
  · exfalso
    rcases hidx with hq | ⟨hq, hav, -⟩
    · rw [hq] at hn
      omega
    · rw [hq] at hn
      rw [hav] at h
      simp at h
      omega

/-- C9: during Recording a due tick at which the sensor reports no data
available leaves the state and the emission stream completely unchanged — the
index does not advance and no error status is raised — and over any run of
ticks containing fewer available readings than the capacity shortfall the
node stays in the capturing state: only the 125th available reading ends
recording, with no time bound and no fault path. -/
theorem c9_unavailable_means_wait :
    (∀ s now r txCmds, s.currentSampleIndex < SAMPLES_PER_CAPTURE →
      performCapture s now false r txCmds = (s, [])) ∧
    (∀ s ticks, s.captureInProgress = true →
      s.currentSampleIndex + availCount ticks < SAMPLES_PER_CAPTURE →
      (recordRun s ticks).captureInProgress = true ∧
      (recordRun s ticks).currentSampleIndex ≤
        s.currentSampleIndex + availCount ticks) := by
  constructor
  · intro s now r txCmds h
    simp only [performCapture]
    rw [if_neg (show ¬(s.currentSampleIndex * SAMPLE_PERIOD_MS ≤ now - s.captureStartTime ∧
        s.currentSampleIndex < SAMPLES_PER_CAPTURE ∧ false = true) from by simp)]
    rw [if_neg (show ¬SAMPLES_PER_CAPTURE ≤ s.currentSampleIndex from by omega)]
  · intro s ticks
    induction ticks generalizing s with
    | nil =>
      intro h1 h2
      exact ⟨h1, Nat.le_add_right _ _⟩
    | cons t rest ih =>
      intro h1 h2
      have hcount : availCount (t :: rest) =
          (if t.2.1 then 1 else 0) + availCount rest := by
        simp [availCount, List.countP_cons]
        cases ht : t.2.1 <;> simp [ht] <;> omega
      have hstep := performCapture_step_bound s t.1 t.2.1 t.2.2 (by
        rw [hcount] at h2
        cases ht : t.2.1 <;> rw [ht] at h2 <;> simp at h2 ⊢ <;> omega)
      have hrec : recordRun s (t :: rest) =
          recordRun (performCapture s t.1 t.2.1 t.2.2 []).1 rest := rfl
      rw [hrec]
      have hprog : (performCapture s t.1 t.2.1 t.2.2 []).1.captureInProgress = true :=
        hstep.1.trans h1
      have hib : (performCapture s t.1 t.2.1 t.2.2 []).1.currentSampleIndex +
          availCount rest < SAMPLES_PER_CAPTURE := by
        rw [hcount] at h2
        omega
      obtain ⟨ha, hb⟩ := ih _ hprog hib
      refine ⟨ha, le_trans hb ?_⟩
      rw [hcount]
      omega

/-- C9 witness: a due, unavailable tick on a fresh recording state changes
nothing, and a one-tick unavailable run keeps the node capturing. -/
theorem c9_unavailable_means_wait_witness :
    (({ initialState with captureInProgress := true } : NodeState).currentSampleIndex <
        SAMPLES_PER_CAPTURE ∧
      performCapture { initialState with captureInProgress := true } 100 false
          ((0 : ℚ), 0, 0) [] =
        ({ initialState with captureInProgress := true }, [])) ∧
    (({ initialState with captureInProgress := true } : NodeState).captureInProgress = true ∧
      ({ initialState with captureInProgress := true } : NodeState).currentSampleIndex +
          availCount [(100, false, ((0 : ℚ), 0, 0))] < SAMPLES_PER_CAPTURE ∧
      ((recordRun { initialState with captureInProgress := true }
          [(100, false, ((0 : ℚ), 0, 0))]).captureInProgress = true ∧
        (recordRun { initialState with captureInProgress := true }
            [(100, false, ((0 : ℚ), 0, 0))]).currentSampleIndex ≤
          ({ initialState with captureInProgress := true } : NodeState).currentSampleIndex +
            availCount [(100, false, ((0 : ℚ), 0, 0))])) :=
  ⟨⟨by decide, c9_unavailable_means_wait.1 _ 100 ((0 : ℚ), 0, 0) [] (by decide)⟩,
    ⟨rfl, by decide,
      c9_unavailable_means_wait.2 _ [(100, false, ((0 : ℚ), 0, 0))] rfl (by decide)⟩⟩

end SkyWriter
